import Mathlib

set_option maxRecDepth 10000

/-!
Shallow embedding of the shit-cpu-emu repository: the virtual machine in
`src/src/main.rs` and the assembler front end in `src/assembler/src/`
(`instr.rs`, `span.rs`, `diag.rs`, `parse.rs`).  Machine bytes (`u8`) are
modelled as `Nat` with explicit `% 256` wherever the Rust code relies on
8-bit wrapping; fallible code returns `Except`.
-/

namespace ShitCpu

/-! ## Virtual machine (src/src/main.rs) -/

/-- `u8::wrapping_add` on byte values modelled as `Nat`. -/
def wadd (a b : Nat) : Nat := (a + b) % 256

/-- `u8::wrapping_sub` on byte values modelled as `Nat` (agrees with the Rust
operation whenever both arguments are below 256). -/
def wsub (a b : Nat) : Nat := (a % 256 + 256 - b % 256) % 256

/-- The machine memory `Memory([u8; 256])`: a list of 256 byte values. -/
def Memory := List Nat

instance : DecidableEq Memory := fun a b => instDecidableEqList a b

/-- `Memory::from_program`: the program bytes copied to the low end of memory,
the rest zero-initialised.  (The Rust code asserts `program.len() <= 256`;
theorems that use this definition carry that bound as a hypothesis.) -/
def Memory.from_program (program : List Nat) : Memory :=
  program ++ List.replicate (256 - program.length) 0

/-- `impl ops::Index<u8> for Memory`: indexing by a byte value.  The `% 256`
mirrors the `u8` type of the index (a `u8` is always below 256). -/
def memRead (m : Memory) (i : Nat) : Nat := m.getD (i % 256) 0

/-- `impl ops::IndexMut<u8> for Memory`: writing one byte. -/
def memWrite (m : Memory) (i v : Nat) : Memory := m.set (i % 256) v

/-- `impl ops::Index<ops::RangeInclusive<u8>> for Memory`, i.e.
`&self.0[start..=stop]` on the 256-byte array.  Rust's slice indexing by an
inclusive range panics when `start > stop + 1` (out-of-order range); the upper
bound can never exceed the array length because `stop < 256`.  The panic is
modelled as `none`. -/
def memSlice (m : Memory) (start stop : Nat) : Option (List Nat) :=
  if start ≤ stop + 1 then some ((m.drop start).take (stop + 1 - start)) else none

/-- The `Machine` struct: program counter, memory, accumulator. -/
structure Machine where
  pc : Nat
  memory : Memory
  acc : Nat
deriving DecidableEq

/-- `Machine::from_program`. -/
def Machine.from_program (program : List Nat) : Machine :=
  { pc := 0, acc := 0, memory := Memory.from_program program }

/-- The two ways `Machine::run` can abort the process: the `panic!` on an
unknown opcode byte, and the slice-index panic inside the `print` opcode when
the inclusive range `start..=stop` is out of order. -/
inductive Fault where
  | unknownOpcode (opcode pos : Nat)
  | sliceOutOfOrder (start stop : Nat)
deriving DecidableEq

/-- Result of one arm of the `match` in `Machine::run`: `stop` returns from
the function, a panic aborts, and every other arm yields the mutated machine,
the `instruction_len` to add to `pc`, and the lines printed by this arm. -/
inductive Exec where
  | stop
  | fault (f : Fault)
  | ok (m : Machine) (len : Nat) (out : List (List Nat))
deriving DecidableEq

/-- The body of the `match current_op_code` in `Machine::run`, one test per
opcode byte in source order.  Addresses and arithmetic wrap exactly where the
Rust code uses `u8` arithmetic / `wrapping_add` / `wrapping_sub`. -/
def execOp (m : Machine) : Exec :=
  let op := memRead m.memory m.pc
  -- nop
  if op = 0x00 then .ok m 1 []
  -- load
  else if op = 0x10 then
    let src := memRead m.memory (wadd m.pc 1)
    .ok { m with acc := memRead m.memory src } 2 []
  -- load immediate
  else if op = 0x11 then
    .ok { m with acc := memRead m.memory (wadd m.pc 1) } 2 []
  -- store
  else if op = 0x12 then
    let dst := memRead m.memory (wadd m.pc 1)
    .ok { m with memory := memWrite m.memory dst m.acc } 2 []
  -- store immediate
  else if op = 0x13 then
    let val := memRead m.memory (wadd m.pc 1)
    let dst := memRead m.memory (wadd m.pc 2)
    .ok { m with memory := memWrite m.memory dst val } 3 []
  -- move
  else if op = 0x14 then
    let src := memRead m.memory (wadd m.pc 1)
    let dst := memRead m.memory (wadd m.pc 2)
    .ok { m with memory := memWrite m.memory dst (memRead m.memory src) } 3 []
  -- jump
  else if op = 0x20 then
    .ok { m with pc := memRead m.memory (wadd m.pc 1) } 0 []
  -- jump zero
  else if op = 0x21 then
    if m.acc = 0 then
      .ok { m with pc := memRead m.memory (wadd m.pc 1) } 0 []
    else
      .ok m 2 []
  -- add
  else if op = 0x30 then
    let src := memRead m.memory (wadd m.pc 1)
    .ok { m with acc := wadd m.acc (memRead m.memory src) } 2 []
  -- add immediate
  else if op = 0x31 then
    .ok { m with acc := wadd m.acc (memRead m.memory (wadd m.pc 1)) } 2 []
  -- subtract
  else if op = 0x32 then
    let src := memRead m.memory (wadd m.pc 1)
    .ok { m with acc := wsub m.acc (memRead m.memory src) } 2 []
  -- subtract immediate
  else if op = 0x33 then
    .ok { m with acc := wsub m.acc (memRead m.memory (wadd m.pc 1)) } 2 []
  -- shift right
  else if op = 0x34 then
    .ok { m with acc := m.acc / 2 } 1 []
  -- shift left
  else if op = 0x35 then
    .ok { m with acc := m.acc * 2 % 256 } 1 []
  -- and
  else if op = 0x36 then
    let src := memRead m.memory (wadd m.pc 1)
    .ok { m with acc := m.acc &&& memRead m.memory src } 2 []
  -- and immediate
  else if op = 0x37 then
    .ok { m with acc := m.acc &&& memRead m.memory (wadd m.pc 1) } 2 []
  -- print
  else if op = 0x40 then
    let src := memRead m.memory (wadd m.pc 1)
    let len := memRead m.memory src
    let start := wadd src 1
    let stop := wadd src len
    match memSlice m.memory start stop with
    | some chars => .ok m 2 [chars]
    | none => .fault (.sliceOutOfOrder start stop)
  -- stop
  else if op = 0x50 then .stop
  else .fault (.unknownOpcode op m.pc)

/-- Result of one iteration of the `loop` in `Machine::run`. -/
inductive Step where
  | halted
  | fault (f : Fault)
  | next (m : Machine) (out : List (List Nat))
deriving DecidableEq

/-- One iteration of the `loop` in `Machine::run`: dispatch the opcode, then
`self.pc = self.pc.wrapping_add(instruction_len)`. -/
def step (m : Machine) : Step :=
  match execOp m with
  | .stop => .halted
  | .fault f => .fault f
  | .ok m' len out => .next { m' with pc := wadd m'.pc len } out

/-- Outcome of running the loop for a bounded number of iterations (the Rust
loop either returns, panics, or keeps going; the fuel makes the embedding
total). -/
inductive RunResult where
  | halted (m : Machine) (out : List (List Nat))
  | fault (f : Fault) (m : Machine) (out : List (List Nat))
  | outOfFuel (m : Machine) (out : List (List Nat))
deriving DecidableEq

/-- `Machine::run`, fuel-bounded: iterate `step`, accumulating printed lines. -/
def run : Nat → Machine → List (List Nat) → RunResult
  | 0, m, out => .outOfFuel m out
  | fuel + 1, m, out =>
    match step m with
    | .halted => .halted m out
    | .fault f => .fault f m out
    | .next m' o => run fuel m' (out ++ o)

/-! ## Instruction set definition (src/assembler/src/instr.rs) -/

/-- The `Opcode` enum: an instruction without its arguments. -/
inductive Opcode where
  | nop
  | ld | ldi | st | sti | mov
  | jmp | jz
  | add | addi | sub | subi | shr | shl | and | andi
  | print
  | stop
deriving DecidableEq

/-- `Opcode::to_byte`: the byte encoding of each opcode. -/
def Opcode.to_byte : Opcode → Nat
  | .nop => 0x00
  | .ld => 0x10
  | .ldi => 0x11
  | .st => 0x12
  | .sti => 0x13
  | .mov => 0x14
  | .jmp => 0x20
  | .jz => 0x21
  | .add => 0x30
  | .addi => 0x31
  | .sub => 0x32
  | .subi => 0x33
  | .shr => 0x34
  | .shl => 0x35
  | .and => 0x36
  | .andi => 0x37
  | .print => 0x40
  | .stop => 0x50

/-- `Opcode::len`: the number of bytes the instruction occupies, arguments
included. -/
def Opcode.len : Opcode → Nat
  | .nop => 1
  | .ld => 2
  | .ldi => 2
  | .st => 2
  | .sti => 3
  | .mov => 3
  | .jmp => 2
  | .jz => 2
  | .add => 2
  | .addi => 2
  | .sub => 2
  | .subi => 2
  | .shr => 1
  | .shl => 1
  | .and => 2
  | .andi => 2
  | .print => 2
  | .stop => 1

/-! ## Theorems about the virtual machine claims -/

/-- C1: for every executed instruction whose opcode byte is in the table, the
pc update follows the opcode table: `stop` terminates the loop, `jmp` and
`jz` with `acc = 0` set `pc` directly to the target operand, and every other
dispatch that yields a next state advances `pc` by exactly `Opcode::len` of
the fetched opcode (so `jz` with `acc ≠ 0` advances by 2); the final conjunct
checks `Opcode::len` against the table's total lengths, so the assembler and
the VM never diverge. -/
theorem c1_pc_update_follows_table (m : Machine) (oc : Opcode)
    (h : memRead m.memory m.pc = oc.to_byte) :
    (oc = .stop → step m = .halted) ∧
    (oc = .jmp → step m = .next { m with pc := memRead m.memory (wadd m.pc 1) % 256 } []) ∧
    (oc = .jz → m.acc = 0 →
      step m = .next { m with pc := memRead m.memory (wadd m.pc 1) % 256 } []) ∧
    (∀ m' out, (oc = .jz → m.acc ≠ 0) → oc ≠ .jmp → step m = .next m' out →
      m'.pc = (m.pc + oc.len) % 256) ∧
    ([Opcode.nop, .ld, .ldi, .st, .sti, .mov, .jmp, .jz, .add, .addi, .sub, .subi,
      .shr, .shl, .and, .andi, .print, .stop].map Opcode.len
      = [1, 2, 2, 2, 3, 3, 2, 2, 2, 2, 2, 2, 1, 1, 2, 2, 2, 1]) := by
  refine ⟨?_, ?_, ?_, ?_, by decide⟩
  · rintro rfl
    simp [Opcode.to_byte] at h
    simp [step, execOp, h]
  · rintro rfl
    simp [Opcode.to_byte] at h
    simp [step, execOp, h, wadd]
  · rintro rfl hacc
    simp [Opcode.to_byte] at h
    simp [step, execOp, h, hacc, wadd]
  · intro m' out hjz hjmp hstep
    cases oc
    case jmp => exact absurd rfl hjmp
    case jz =>
      simp [Opcode.to_byte] at h
      have hacc : ¬ m.acc = 0 := hjz rfl
      simp [step, execOp, h, hacc] at hstep
      obtain ⟨h1, h2⟩ := hstep
      subst h1
      rfl
    case print =>
      simp [Opcode.to_byte] at h
      cases hmem : memSlice m.memory (wadd (memRead m.memory (wadd m.pc 1)) 1)
          (wadd (memRead m.memory (wadd m.pc 1))
            (memRead m.memory (memRead m.memory (wadd m.pc 1)))) with
      | none => simp [step, execOp, h, hmem] at hstep
      | some chars =>
        simp [step, execOp, h, hmem] at hstep
        obtain ⟨h1, h2⟩ := hstep
        subst h1
        rfl
    all_goals
      (simp [Opcode.to_byte] at h
       simp [step, execOp, h] at hstep
       try (obtain ⟨h1, h2⟩ := hstep; subst h1; rfl))

/-- Witness for C1: the `ldi` instruction of the `[0x11, 0x05, 0x50]` program
advances `pc` by `Opcode.ldi.len = 2`. -/
theorem c1_pc_update_follows_table_witness :
    ({ pc := 2, memory := Memory.from_program [0x11, 0x05, 0x50], acc := 5 } : Machine).pc
      = ((Machine.from_program [0x11, 0x05, 0x50]).pc + Opcode.ldi.len) % 256 :=
  (c1_pc_update_follows_table (Machine.from_program [0x11, 0x05, 0x50]) .ldi (by decide)).2.2.2.1
    { pc := 2, memory := Memory.from_program [0x11, 0x05, 0x50], acc := 5 } []
    (by simp) (by simp) (by decide)

/-- C2 (code bug): a `print` (0x40) whose string byte range wraps past address
255 does not read the wrapped bytes — the inclusive-range slice index
`memory[start..=stop]` is out of order and the process panics.  Here
`src = 0xFE` and `memory[0xFE] = 2`, so the string range is `255..=0`. -/
theorem c2_print_wrap_slice_faults :
    memRead (Machine.from_program ([0x40, 0xFE] ++ List.replicate 252 0 ++ [2])).memory 0xFE = 2 ∧
    step (Machine.from_program ([0x40, 0xFE] ++ List.replicate 252 0 ++ [2])) =
      .fault (.sliceOutOfOrder 255 0) := by decide

/-- C4 (code bug): an unknown opcode byte (0x60) does abort with a diagnostic
carrying the byte and the pc, but it is not the only fault case: a `print`
with a wrapping string range also aborts, and 0x40 is the `print` opcode of
the table. -/
theorem c4_unknown_opcode_not_only_fault :
    step { pc := 0, memory := Memory.from_program [0x60], acc := 0 } =
      .fault (.unknownOpcode 0x60 0) ∧
    step (Machine.from_program ([0x40, 0xFE] ++ List.replicate 252 0 ++ [3])) =
      .fault (.sliceOutOfOrder 255 1) ∧
    Opcode.print.to_byte = 0x40 := by decide

/-- C8: the four arithmetic opcodes 0x30-0x33 never fault and update `acc`
with wrapping modulo-256 arithmetic; concretely, `[0x31, 0xFF, 0x50]` from
`acc = 0` halts with `acc = 255`, and `addi 2` from `acc = 255` wraps
to `acc = 1`. -/
theorem c8_arithmetic_wraps (m : Machine) :
    (memRead m.memory m.pc = 0x30 →
      step m = .next { m with
        pc := (m.pc + 2) % 256
        acc := (m.acc + memRead m.memory (memRead m.memory ((m.pc + 1) % 256))) % 256 } []) ∧
    (memRead m.memory m.pc = 0x31 →
      step m = .next { m with
        pc := (m.pc + 2) % 256
        acc := (m.acc + memRead m.memory ((m.pc + 1) % 256)) % 256 } []) ∧
    (memRead m.memory m.pc = 0x32 →
      step m = .next { m with
        pc := (m.pc + 2) % 256
        acc := (m.acc % 256 + 256
          - memRead m.memory (memRead m.memory ((m.pc + 1) % 256)) % 256) % 256 } []) ∧
    (memRead m.memory m.pc = 0x33 →
      step m = .next { m with
        pc := (m.pc + 2) % 256
        acc := (m.acc % 256 + 256 - memRead m.memory ((m.pc + 1) % 256) % 256) % 256 } []) ∧
    run 3 (Machine.from_program [0x31, 0xFF, 0x50]) [] =
      .halted { pc := 2, memory := Memory.from_program [0x31, 0xFF, 0x50], acc := 255 } [] ∧
    step { pc := 0, memory := Memory.from_program [0x31, 0x02, 0x50], acc := 255 } =
      .next { pc := 2, memory := Memory.from_program [0x31, 0x02, 0x50], acc := 1 } [] := by
  refine ⟨?_, ?_, ?_, ?_, by decide, by decide⟩ <;>
    (intro h; simp [step, execOp, h, wadd, wsub])

/-- Witness for C8: the first step of the `[0x31, 0xFF, 0x50]` program is the
wrapping `addi`. -/
theorem c8_arithmetic_wraps_witness :
    step (Machine.from_program [0x31, 0xFF, 0x50]) =
      .next { Machine.from_program [0x31, 0xFF, 0x50] with
        pc := ((Machine.from_program [0x31, 0xFF, 0x50]).pc + 2) % 256
        acc := ((Machine.from_program [0x31, 0xFF, 0x50]).acc
          + memRead (Machine.from_program [0x31, 0xFF, 0x50]).memory
              (((Machine.from_program [0x31, 0xFF, 0x50]).pc + 1) % 256)) % 256 } [] :=
  (c8_arithmetic_wraps (Machine.from_program [0x31, 0xFF, 0x50])).2.1 (by decide)

/-- C9: running `[0x11, 0x05, 0x50]` (`ldi 5; stop`) halts with `acc = 5`,
`pc = 2` and no output. -/
theorem c9_ldi_stop_scenario :
    run 3 (Machine.from_program [0x11, 0x05, 0x50]) [] =
      .halted { pc := 2, memory := Memory.from_program [0x11, 0x05, 0x50], acc := 5 } [] := by
  decide

/-- C10: a machine built by `Machine::from_program` from a program of at most
256 bytes starts with `pc = 0` and `acc = 0`. -/
theorem c10_initial_registers_zero (program : List Nat) (h : program.length ≤ 256) :
    (Machine.from_program program).pc = 0 ∧ (Machine.from_program program).acc = 0 :=
  ⟨rfl, rfl⟩

/-- Witness for C10 at the three-byte `ldi 5; stop` program. -/
theorem c10_initial_registers_zero_witness :
    [(0x11 : Nat), 0x05, 0x50].length ≤ 256 ∧
    ((Machine.from_program [0x11, 0x05, 0x50]).pc = 0 ∧
      (Machine.from_program [0x11, 0x05, 0x50]).acc = 0) :=
  ⟨by decide, c10_initial_registers_zero [0x11, 0x05, 0x50] (by decide)⟩

/-! ## Assembler front end (src/assembler/src/span.rs, diag.rs, instr.rs,
parse.rs).  Rust string slices are modelled as `List Char` with explicit byte
positions; diagnostic texts with characters the development cannot carry
(quotes around interpolated values) are paraphrased to plain ASCII, keeping
structure, spans and note counts exact. -/

instance {ε α : Type} [DecidableEq ε] [DecidableEq α] : DecidableEq (Except ε α) := fun x y =>
  match x, y with
  | .ok a, .ok b => if h : a = b then .isTrue (by rw [h]) else .isFalse (by simp [h])
  | .error a, .error b => if h : a = b then .isTrue (by rw [h]) else .isFalse (by simp [h])
  | .ok _, .error _ => .isFalse (by simp)
  | .error _, .ok _ => .isFalse (by simp)

/-- The `Span` struct: a `[lo, hi)` byte region of a source line. -/
structure Span where
  lo : Nat
  hi : Nat
deriving DecidableEq

/-- `Span::len`. -/
def Span.len (s : Span) : Nat := s.hi - s.lo

/-- The `Spanned<T>` wrapper. -/
structure Spanned (α : Type) where
  data : α
  span : Span
deriving DecidableEq

/-- The `Token` enum of the lexer. -/
inductive Token where
  | dot
  | colon
  | bracketOpen
  | bracketClose
  | ident (s : String)
  | literal (v : Nat)
deriving DecidableEq, BEq

/-- The `Diag` struct: message, optional span, ordered notes. -/
structure Diag where
  msg : String
  span : Option Span
  notes : List String
deriving DecidableEq

/-- `Diag::span_error`. -/
def Diag.span_error (span : Span) (msg : String) : Diag :=
  { msg := msg, span := some span, notes := [] }

/-- `Diag::add_note`. -/
def Diag.add_note (d : Diag) (msg : String) : Diag :=
  { d with notes := d.notes ++ [msg] }

/-- The `Arg` enum: a resolved value or a deferred label reference. -/
inductive Arg where
  | value (v : Nat)
  | label (name : String)
deriving DecidableEq

/-- The `Instruction` enum of instr.rs, arguments included. -/
inductive Instruction where
  | nop
  | ld (src : Arg)
  | ldi (v : Arg)
  | st (dst : Arg)
  | sti (v : Arg)
  | mov (src dst : Arg)
  | jmp (target : Arg)
  | jz (target : Arg)
  | add (src : Arg)
  | addi (v : Arg)
  | sub (src : Arg)
  | subi (v : Arg)
  | shr
  | shl
  | and (src : Arg)
  | andi (v : Arg)
  | print (src : Arg)
  | stop
deriving DecidableEq

/-- The `Directive` enum. -/
inductive Directive where
  | byte (v : Nat)
deriving DecidableEq

/-- The `Line` enum: what one non-empty source line parses to. -/
inductive Line where
  | label (name : String)
  | directive (d : Directive)
  | instruction (i : Instruction)
deriving DecidableEq

/-- The `Program` struct. -/
structure Program where
  lines : List (Spanned Line)
deriving DecidableEq

/-- Byte width of a character in UTF-8 (`char::len_utf8`). -/
def charSize (c : Char) : Nat :=
  if c.toNat < 0x80 then 1
  else if c.toNat < 0x800 then 2
  else if c.toNat < 0x10000 then 3
  else 4

/-- Byte length of a string (`str::len`). -/
def strBytes (s : String) : Nat := (s.data.map charSize).sum

/-- `str::char_indices` from a given byte offset. -/
def charIndicesFrom (i : Nat) : List Char → List (Nat × Char)
  | [] => []
  | c :: cs => (i, c) :: charIndicesFrom (i + charSize c) cs

/-- `str::char_indices`. -/
def charIndices (s : String) : List (Nat × Char) := charIndicesFrom 0 s.data

/-- `char::is_digit(16)`. -/
def isHexDigit (c : Char) : Bool :=
  c.isDigit || ('a' ≤ c && c ≤ 'f') || ('A' ≤ c && c ≤ 'F')

/-- Value of one hexadecimal digit. -/
def hexDigitVal (c : Char) : Nat :=
  if c.isDigit then c.toNat - '0'.toNat
  else if 'a' ≤ c && c ≤ 'f' then c.toNat - 'a'.toNat + 10
  else c.toNat - 'A'.toNat + 10

/-- Numeric value of a run of hexadecimal digits (`u8::from_str_radix`
succeeds exactly when the run is non-empty and this value fits in a byte). -/
def hexValue (ds : List Char) : Nat := ds.foldl (fun acc c => acc * 16 + hexDigitVal c) 0

/-- `is_ident_start`. -/
def isIdentStart (c : Char) : Bool := c = '_' || c.isAlpha

/-- `is_ident_char`. -/
def isIdentChar (c : Char) : Bool := c.isAlphanum

/-- End position recorded for a pushed token: the next unconsumed character's
index, or the line's byte length at end of line. -/
def nextTokenEnd (line : String) : List (Nat × Char) → Nat
  | (i, _) :: _ => i
  | [] => strBytes line

/-- Loop body of `tokenize`, processing the remaining `char_indices` of the
line.  The branches appear in source order: single-character tokens, `$`
literals, identifiers, whitespace, `;` comments, and the illegal-character
error.  The extra fuel argument makes the recursion structural (each step
consumes at least one character, so any fuel of at least the list length
reaches the real end); the fuel-exhausted case is unreachable from
`tokenize`. -/
def tokenizeAux (line : String) : Nat → List (Nat × Char) → Except Diag (List (Spanned Token))
  | _, [] => .ok []
  | 0, _ :: _ => .ok []
  | fuel + 1, (start, c) :: cs =>
    if c = '.' then
      (tokenizeAux line fuel cs).map fun ts => ⟨.dot, ⟨start, nextTokenEnd line cs⟩⟩ :: ts
    else if c = ':' then
      (tokenizeAux line fuel cs).map fun ts => ⟨.colon, ⟨start, nextTokenEnd line cs⟩⟩ :: ts
    else if c = '[' then
      (tokenizeAux line fuel cs).map fun ts =>
        ⟨.bracketOpen, ⟨start, nextTokenEnd line cs⟩⟩ :: ts
    else if c = ']' then
      (tokenizeAux line fuel cs).map fun ts =>
        ⟨.bracketClose, ⟨start, nextTokenEnd line cs⟩⟩ :: ts
    else if c = '$' then
      let digits := cs.takeWhile fun p => isHexDigit p.2
      let rest := cs.dropWhile fun p => isHexDigit p.2
      let stop := match digits.getLast? with
        | some (i, d) => i + charSize d
        | none => start + charSize c
      let v := hexValue (digits.map Prod.snd)
      if digits.isEmpty || 255 < v then
        .error (((Diag.span_error ⟨start, stop⟩ "this literal value overflows u8").add_note
          "only values between 0 and 255 ($FF) are allowed").add_note
          "numbers are specified in hexadecimal")
      else
        (tokenizeAux line fuel rest).map fun ts =>
          ⟨.literal v, ⟨start, nextTokenEnd line rest⟩⟩ :: ts
    else if isIdentStart c then
      let taken := cs.takeWhile fun p => isIdentChar p.2
      let rest := cs.dropWhile fun p => isIdentChar p.2
      let name := String.mk (c :: taken.map Prod.snd)
      (tokenizeAux line fuel rest).map fun ts =>
        ⟨.ident name, ⟨start, nextTokenEnd line rest⟩⟩ :: ts
    else if c.isWhitespace then
      tokenizeAux line fuel cs
    else if c = ';' then
      .ok []
    else
      .error (Diag.span_error ⟨start, start + charSize c⟩ "invalid token start character")

/-- `tokenize`: convert a line into a list of spanned tokens. -/
def tokenize (line : String) : Except Diag (List (Spanned Token)) :=
  tokenizeAux line (charIndices line).length (charIndices line)

/-- Debug rendering of a token for diagnostic messages. -/
def tokenDebug : Token → String
  | .dot => "Dot"
  | .colon => "Colon"
  | .bracketOpen => "BracketOpen"
  | .bracketClose => "BracketClose"
  | .ident s => "Ident(" ++ s ++ ")"
  | .literal v => "Literal(" ++ toString v ++ ")"

/-- Span used by the `expect_token!` macro when the line ran out of tokens:
`Span::new(tokens[idx - 1].span.hi, tokens[idx - 1].span.hi + 1)`. -/
def outOfTokensSpan (tokens : List (Spanned Token)) (idx : Nat) : Span :=
  let prev := tokens.getD (idx - 1) ⟨.dot, ⟨0, 0⟩⟩
  ⟨prev.span.hi, prev.span.hi + 1⟩

/-- Expansion of `expect_token!(tokens[idx]; "ident"; Token::Ident(s) => *s)`. -/
def expectIdent (tokens : List (Spanned Token)) (idx : Nat) : Except Diag String :=
  match tokens.get? idx with
  | some ⟨.ident s, _⟩ => .ok s
  | some ⟨t, sp⟩ =>
    .error (Diag.span_error sp ("unexpected " ++ tokenDebug t ++ " token, expected ident"))
  | none =>
    .error (Diag.span_error (outOfTokensSpan tokens idx) "unexpected end of line, expected ident")

/-- Expansion of `expect_token!(tokens[idx]; "literal"; Token::Literal(v) => *v)`. -/
def expectLiteral (tokens : List (Spanned Token)) (idx : Nat) : Except Diag Nat :=
  match tokens.get? idx with
  | some ⟨.literal v, _⟩ => .ok v
  | some ⟨t, sp⟩ =>
    .error (Diag.span_error sp ("unexpected " ++ tokenDebug t ++ " token, expected literal"))
  | none =>
    .error (Diag.span_error (outOfTokensSpan tokens idx) "unexpected end of line, expected literal")

/-- Expansion of `expect_eol!(tokens[idx], additional)`. -/
def expectEol (tokens : List (Spanned Token)) (idx : Nat) (additional : String) :
    Except Diag Unit :=
  match tokens.get? idx with
  | some tok =>
    .error (Diag.span_error tok.span
      ("unexpected token " ++ tokenDebug tok.data ++ ", expected end of line" ++ additional))
  | none => .ok ()

/-- `parse_instruction`: in the source this is a stub (`// TODO`) that always
returns `Ok(Instruction::Nop)` without looking at the mnemonic or the
operand tokens. -/
def parse_instruction (_name : String) (_tokens : List (Spanned Token)) :
    Except Diag Instruction :=
  .ok .nop

/-- `parse_directive`. -/
def parse_directive (name : String) (tokens : List (Spanned Token)) : Except Diag Directive :=
  if name = "byte" then do
    let v ← expectLiteral tokens 2
    let _ ← expectEol tokens 3 ""
    pure (.byte v)
  else
    .error (Diag.span_error (tokens.getD 1 ⟨.dot, ⟨0, 0⟩⟩).span ("invalid directive name " ++ name))

/-- `parse_line`: dispatch on the first token. -/
def parse_line (tokens : List (Spanned Token)) : Except Diag (Option Line) :=
  match tokens with
  | [] => .ok none
  | t0 :: _ =>
    match t0.data with
    | .dot => do
      let name ← expectIdent tokens 1
      let colonNext := ((tokens.get? 2).map fun s => s.data == Token.colon).getD false
      if colonNext then do
        let _ ← expectEol tokens 3 " after label"
        pure (some (.label name))
      else do
        let d ← parse_directive name tokens
        pure (some (.directive d))
    | .ident name => do
      let i ← parse_instruction name tokens
      pure (some (.instruction i))
    | t =>
      .error ((Diag.span_error t0.span
        ("unexpected " ++ tokenDebug t ++ " token at start of line")).add_note
        "expected ident or .")

/-- Split off one line at the first line feed (`str::lines` step). -/
def takeLine : List Char → List Char × Option (List Char)
  | [] => ([], none)
  | c :: rest =>
    if c = '\n' then ([], some rest)
    else (c :: (takeLine rest).1, (takeLine rest).2)

/-- `str::lines` strips one trailing carriage return from each line. -/
def stripCR (l : List Char) : List Char :=
  match l.getLast? with
  | some c => if c = '\r' then l.dropLast else l
  | none => l

/-- Recursion of `rustLines`.  The fuel argument makes the recursion
structural (each step consumes at least the line terminator, so any fuel of
at least the character count reaches the real end); the fuel-exhausted case
is unreachable from `rustLines`. -/
def rustLinesPosAux : Nat → Nat → List Char → List (Nat × String)
  | _, _, [] => []
  | 0, _, _ :: _ => []
  | fuel + 1, pos, c :: cs2 =>
    match takeLine (c :: cs2) with
    | (l, none) => [(pos, String.mk (stripCR l))]
    | (l, some rest) =>
      (pos, String.mk (stripCR l)) :: rustLinesPosAux fuel (pos + (l.map charSize).sum + 1) rest

/-- `input.lines().enumerate()` combined with `line_span`: the lines of the
input paired with the byte offset each line starts at (the Rust code derives
that offset by pointer arithmetic). -/
def rustLines (input : String) : List (Nat × String) :=
  rustLinesPosAux input.data.length 0 input.data

/-- `line_span`: the span of a line inside the whole input buffer. -/
def line_span (pos : Nat) (line : String) : Span := ⟨pos, pos + strBytes line⟩

/-- Per-line body of the `filter_map` in `parse`: tokenize, parse, and attach
the line's span. -/
def processLine (pl : Nat × String) : Except Diag (Option (Spanned Line)) :=
  (tokenize pl.2).bind fun ts =>
    (parse_line ts).map (Option.map fun x => ⟨x, line_span pl.1 pl.2⟩)

/-- The per-line loop of `parse`, threading the mutable `error` flag and the
collected lines. -/
def parseAux : List (Nat × String) → Bool → List (Spanned Line) → Bool × List (Spanned Line)
  | [], err, acc => (err, acc)
  | pl :: rest, err, acc =>
    match processLine pl with
    | .error _ => parseAux rest true acc
    | .ok none => parseAux rest err acc
    | .ok (some l) => parseAux rest err (acc ++ [l])

/-- `parse`: parse a whole source string into a `Program`, or `Err(())` when
any line reported an error. -/
def parse (input : String) : Except Unit Program :=
  let r := parseAux (rustLines input) false []
  if r.1 then .error () else .ok ⟨r.2⟩

/-! ## Theorems about the assembler claims -/

/-- C3 (code bug): `parse_instruction` is a `TODO` stub: it accepts an
unknown mnemonic, ignores operand arity, performs no end-of-line check, and
always produces `Instruction::Nop`. -/
theorem c3_parse_instruction_is_stub :
    parse_instruction "xyzzy" [⟨.ident "xyzzy", ⟨0, 5⟩⟩] = .ok .nop ∧
    parse_line [⟨.ident "xyzzy", ⟨0, 5⟩⟩] = .ok (some (.instruction .nop)) ∧
    parse_line [⟨.ident "ldi", ⟨0, 3⟩⟩, ⟨.literal 5, ⟨4, 7⟩⟩, ⟨.literal 6, ⟨8, 11⟩⟩] =
      .ok (some (.instruction .nop)) := by decide

/-- Bool flag telling whether a line of the input produced a parse error. -/
def lineErrored (pl : Nat × String) : Bool :=
  match processLine pl with
  | .error _ => true
  | .ok _ => false

/-- The parsed line a successful, non-empty line contributes to the program. -/
def lineParsed (pl : Nat × String) : Option (Spanned Line) :=
  match processLine pl with
  | .ok (some l) => some l
  | _ => none

theorem parseAux_spec (ls : List (Nat × String)) (err : Bool) (acc : List (Spanned Line)) :
    parseAux ls err acc = (err || ls.any lineErrored, acc ++ ls.filterMap lineParsed) := by
  induction ls generalizing err acc with
  | nil => simp [parseAux]
  | cons pl rest ih =>
    cases h : processLine pl with
    | error d =>
      simp [parseAux, h, ih, lineErrored, lineParsed, List.any_cons, List.filterMap_cons]
    | ok o =>
      cases o with
      | none =>
        simp [parseAux, h, ih, lineErrored, lineParsed, List.any_cons, List.filterMap_cons]
      | some l =>
        simp [parseAux, h, ih, lineErrored, lineParsed, List.any_cons, List.filterMap_cons]

/-- C5: `parse` processes every line even after a line fails; the overall
result is `Err` exactly when at least one line errored, and on success the
program contains exactly the successfully parsed non-empty lines in order. -/
theorem c5_parse_line_by_line (input : String) :
    (parse input = .error () ↔ (rustLines input).any lineErrored = true) ∧
    (∀ prog, parse input = .ok prog →
      prog.lines = (rustLines input).filterMap lineParsed) := by
  have hp := parseAux_spec (rustLines input) false []
  constructor
  · cases hany : (rustLines input).any lineErrored <;>
      simp [parse, hp, hany]
  · intro prog hok
    cases hany : (rustLines input).any lineErrored
    · simp [parse, hp, hany] at hok
      rw [← hok]
    · simp [parse, hp, hany] at hok

/-- Witness for C5: an input whose middle line is bad parses to `Err` with
the bad line detected, and a well-formed input yields exactly its parsed
lines. -/
theorem c5_parse_line_by_line_witness :
    parse "nop\n%\nnop" = .error () ∧
    (⟨[⟨.directive (.byte 5), ⟨0, 9⟩⟩]⟩ : Program).lines =
      (rustLines ".byte $05").filterMap lineParsed :=
  ⟨(c5_parse_line_by_line "nop\n%\nnop").1.mpr (by decide),
    (c5_parse_line_by_line ".byte $05").2 ⟨[⟨.directive (.byte 5), ⟨0, 9⟩⟩]⟩ (by decide)⟩

/-- C6: a `$` literal lexes by true numeric value: when the hex digit run is
non-empty and its value is at most 0xFF the token is `Literal(value)`
regardless of digit count; when the value exceeds 0xFF the whole tokenize
call fails with an error spanning the entire literal and carrying exactly the
two notes (valid range, numeric base). -/
theorem c6_hex_literal (line : String) (start fuel : Nat) (cs : List (Nat × Char)) :
    ((cs.takeWhile fun p => isHexDigit p.2) ≠ [] →
      hexValue ((cs.takeWhile fun p => isHexDigit p.2).map Prod.snd) ≤ 255 →
      tokenizeAux line (fuel + 1) ((start, '$') :: cs) =
        (tokenizeAux line fuel (cs.dropWhile fun p => isHexDigit p.2)).map
          fun ts => ⟨.literal (hexValue ((cs.takeWhile fun p => isHexDigit p.2).map Prod.snd)),
            ⟨start, nextTokenEnd line (cs.dropWhile fun p => isHexDigit p.2)⟩⟩ :: ts) ∧
    (255 < hexValue ((cs.takeWhile fun p => isHexDigit p.2).map Prod.snd) →
      tokenizeAux line (fuel + 1) ((start, '$') :: cs) =
        .error ⟨"this literal value overflows u8",
          some ⟨start, match (cs.takeWhile fun p => isHexDigit p.2).getLast? with
            | some (i, d) => i + charSize d
            | none => start + charSize '$'⟩,
          ["only values between 0 and 255 ($FF) are allowed",
            "numbers are specified in hexadecimal"]⟩) := by
  constructor
  · intro hne hle
    rw [tokenizeAux]
    rw [if_neg (by decide), if_neg (by decide), if_neg (by decide), if_neg (by decide),
      if_pos rfl]
    simp only [List.isEmpty_eq_true, hne, decide_eq_true_eq, Bool.false_or, if_neg,
      Nat.not_lt.mpr hle, decide_eq_false, Bool.or_false, Bool.false_eq_true, if_false]
    simp [List.isEmpty_iff, hne]
  · intro hgt
    rw [tokenizeAux]
    rw [if_neg (by decide), if_neg (by decide), if_neg (by decide), if_neg (by decide),
      if_pos rfl]
    simp [hgt, Diag.span_error, Diag.add_note]

/-- Witness for C6: `$0FF` needs three digits yet stays at value 255, so it
lexes to `Literal(255)` with a span over the whole literal. -/
theorem c6_hex_literal_witness :
    tokenize "$0FF" = .ok [⟨.literal 255, ⟨0, 4⟩⟩] := by
  have h := (c6_hex_literal "$0FF" 0 3 (charIndicesFrom 1 ['0', 'F', 'F'])).1
    (by decide) (by decide)
  rw [tokenize, show charIndices "$0FF" = (0, '$') :: charIndicesFrom 1 ['0', 'F', 'F']
    from by decide,
    show ((0, '$') :: charIndicesFrom 1 ['0', 'F', 'F']).length = 3 + 1 from by decide, h]
  decide

/-- C7 (amended): when the expected token is missing because the line ended,
the diagnostic is anchored at the one-byte-wide span starting at the previous
token end, `Span::new(prev.hi, prev.hi + 1)` (the claim called this span
zero-width and placed one byte past the end, which does not match the code);
when a wrong or extra token is present, the diagnostic is anchored at that
token's span. -/
theorem c7_expect_spans (tokens : List (Spanned Token)) (idx : Nat) :
    (∀ prev, tokens.get? idx = none → tokens.get? (idx - 1) = some prev →
      expectIdent tokens idx = .error (Diag.span_error ⟨prev.span.hi, prev.span.hi + 1⟩
        "unexpected end of line, expected ident") ∧
      expectLiteral tokens idx = .error (Diag.span_error ⟨prev.span.hi, prev.span.hi + 1⟩
        "unexpected end of line, expected literal")) ∧
    (∀ t, tokens.get? idx = some t → (∀ s, t.data ≠ .ident s) →
      expectIdent tokens idx = .error (Diag.span_error t.span
        ("unexpected " ++ tokenDebug t.data ++ " token, expected ident"))) ∧
    (∀ t, tokens.get? idx = some t → (∀ v, t.data ≠ .literal v) →
      expectLiteral tokens idx = .error (Diag.span_error t.span
        ("unexpected " ++ tokenDebug t.data ++ " token, expected literal"))) ∧
    (∀ t extra, tokens.get? idx = some t →
      expectEol tokens idx extra = .error (Diag.span_error t.span
        ("unexpected token " ++ tokenDebug t.data ++ ", expected end of line" ++ extra))) := by
  refine ⟨?_, ?_, ?_, ?_⟩
  · intro prev hnone hprev
    simp only [List.get?_eq_getElem?] at hnone hprev
    constructor <;>
      simp [expectIdent, expectLiteral, hnone, outOfTokensSpan, List.getD_eq_getD_get?,
        List.get?_eq_getElem?, hprev]
  · intro t ht hnid
    simp only [List.get?_eq_getElem?] at ht
    obtain ⟨td, sp⟩ := t
    cases td <;> simp [expectIdent, ht] <;> exact absurd rfl (hnid _)
  · intro t ht hnl
    simp only [List.get?_eq_getElem?] at ht
    obtain ⟨td, sp⟩ := t
    cases td <;> simp [expectLiteral, ht] <;> exact absurd rfl (hnl _)
  · intro t extra ht
    simp only [List.get?_eq_getElem?] at ht
    simp [expectEol, ht]

/-- Witness for C7 (amended) at a lone `.` token. -/
theorem c7_expect_spans_witness :
    expectIdent [⟨.dot, ⟨0, 1⟩⟩] 1 = .error (Diag.span_error ⟨1, 2⟩
      "unexpected end of line, expected ident") ∧
    expectLiteral [⟨.dot, ⟨0, 1⟩⟩] 1 = .error (Diag.span_error ⟨1, 2⟩
      "unexpected end of line, expected literal") :=
  (c7_expect_spans [⟨.dot, ⟨0, 1⟩⟩] 1).1 ⟨.dot, ⟨0, 1⟩⟩ (by decide) (by decide)

/-- Counterexample for C7 as stated: on the line consisting of the single
token `.` spanning bytes 0..1, the ran-out-of-tokens diagnostic is anchored
at span 1..2, which has length 1, not the zero-width span the claim
describes. -/
theorem c7_run_out_span_not_zero_width :
    parse_line [⟨.dot, ⟨0, 1⟩⟩] =
      .error (Diag.span_error ⟨1, 2⟩ "unexpected end of line, expected ident") ∧
    Span.len ⟨1, 2⟩ = 1 := by decide

end ShitCpu
